import Mathlib

/-!
Verification of the threads-based POSIX AIO core (src/src/aio/aio.c and
src/include/aio.h) against its natural-language specification.

The development shallowly embeds the relevant code paths:

* straight-line paths (`submit`, `aio_cancel`, `aio_fsync`, `aio_error`,
  `aio_return`, `__aio_unref_queue`, the `cleanup` handler) become pure
  functions over explicit pre-state values, paired with event traces that
  record the order of externally visible actions (atomic swaps, futex
  wakes, lock operations, unlinking, notification);
* the per-queue sequencing discipline of `io_thread_func` becomes a small
  transition system on a queue state (the doubly linked worker list,
  newest first), with submission, I/O start (guarded exactly by the
  condvar wait-loop predicate of the code) and completion (unlinking).
-/

/- Constants from the C headers used by src/src/aio/aio.c
   (errno.h, fcntl.h, aio.h; Linux generic values). -/

def EINPROGRESS : Int := 115

def ECANCELED : Int := 125

def EBADF : Int := 9

def EAGAIN : Int := 11

def EINVAL : Int := 22

def ENOENT : Int := 2

def O_SYNC : Int := 1052672

def O_DSYNC : Int := 4096

def AIO_CANCELED : Int := 0

def AIO_NOTCANCELED : Int := 1

def AIO_ALLDONE : Int := 2

/-! ## Request handles

The caller-owned `struct aiocb`, restricted to the fields the embedded
paths read or write: the file descriptor, an identity used by the
cancellation scan in place of the C pointer comparison `cb != p->cb`,
and the two result slots `__err` and `__ret`. -/

structure Aiocb where
  fd : Int
  id : Nat
  err : Int
  ret : Int
deriving DecidableEq

/-! ## aio_error / aio_return (§4.7 of the spec)

`aio_error` returns `cb->__err & 0x7fffffff` after a barrier; the stored
word is modelled as the 32-bit machine word holding the signed value.
`aio_return` returns `cb->__ret` verbatim. -/

def aio_error_model (errWord : Nat) : Nat := errWord &&& 0x7fffffff

def aio_return_model (ret : Int) : Int := ret

/-! ## Cancellation (`aio_cancel`)

The scan over the queue's worker list. Each worker is described by its
handle identity, the value of its `running` word observed by the
canceller's CAS `a_cas(&p->running, 1, -1)` (the code takes the branch
whenever the observed value is nonzero), and the error recorded on the
worker once the canceller's `__wait` on `running` returns. -/

structure WorkerC where
  cbId : Nat
  running : Int
  errA : Int
deriving DecidableEq

def cancelScan (cbq : Option Nat) : List WorkerC → Int → Int
  | [], r => r
  | p :: ps, r =>
      cancelScan cbq ps
        (if (match cbq with
             | some c => decide (c ≠ p.cbId)
             | none => false) then r
         else if p.running ≠ 0 then
           (if p.errA = ECANCELED then AIO_CANCELED else r)
         else r)

/-- Embedding of `aio_cancel(fd, cb)` minus the EINVAL precheck.
The caller has already set `errno = ENOENT`; `__aio_get_queue(fd, 0)`
fails with EBADF exactly when `fd < 0`, and otherwise merely looks `fd`
up in the map — with `need == 0` it never probes the descriptor with
`fcntl`, so `fdValid` (whether the OS considers the descriptor open) is
not consulted on this path.  `queue` is the map lookup result: the
worker list when a queue exists for `fd`, `none` otherwise.  Returns
(result, errno, handle), the handle passed through untouched because the
function never writes the aiocb. -/
def cancelCore (fd : Int) (cb : Option Aiocb) (queue : Option (List WorkerC))
    (fdValid : Bool) : Int × Int × Option Aiocb :=
  if fd < 0 then (-1, EBADF, cb)
  else
    match queue with
    | none => (AIO_ALLDONE, ENOENT, cb)
    | some ws => (cancelScan (cb.map Aiocb.id) ws AIO_ALLDONE, ENOENT, cb)

/-- Embedding of `aio_cancel(fd, cb)`: the unspecified-behaviour check
`cb && fd != cb->aio_fildes` runs first and returns −1/EINVAL without
touching anything; then the queue lookup and worker scan. -/
def aio_cancel_model (fd : Int) (cb : Option Aiocb)
    (queue : Option (List WorkerC)) (fdValid : Bool) : Int × Int × Option Aiocb :=
  match cb with
  | some c =>
      if fd ≠ c.fd then (-1, EINVAL, some c)
      else cancelCore fd (some c) queue fdValid
  | none => cancelCore fd none queue fdValid

/-! ## Submission (`submit`)

The queue-acquisition outcome is abstracted as `acqErr`: `none` when
`__aio_get_queue(cb->aio_fildes, 1)` returned a locked queue, `some e`
when it returned the null sentinel with `errno = e`.  `spawnOk` is the
`pthread_create` outcome.  `errno0` is the entry value of `errno`, kept
when nothing assigns it. -/

structure SubmitOut where
  res : Int
  errno : Int
  hErr : Int
  hRet : Option Int
  refDelta : Int
deriving DecidableEq

def submitModel (errno0 : Int) (acqErr : Option Int) (spawnOk : Bool) : SubmitOut :=
  match acqErr with
  | some e =>
      let e2 := if e ≠ EBADF then EAGAIN else e
      ⟨-1, e2, e2, some (-1), 0⟩
  | none =>
      if spawnOk then ⟨0, errno0, EINPROGRESS, none, 1⟩
      else ⟨-1, EAGAIN, EAGAIN, some (-1), 0⟩

inductive SEv where
  | acquireQ | incRef | unlockQ | setRetFail | setErrFail
  | setErrInProgress | spawnT | lockQ | unrefQ | setErrAgain | setRetNeg | waitSem
deriving DecidableEq

/-- Order of externally visible actions of `submit`.  On acquisition
failure the handle is stamped (`__ret` then `__err`) and −1 returned.
Otherwise: `q->ref++`, unlock, `cb->__err = EINPROGRESS`, spawn; on
spawn failure relock, `__aio_unref_queue`, stamp `__err = EAGAIN` and
`__ret = -1`; on success wait on the handshake semaphore. -/
def submitEvents (acqOk : Bool) (spawnOk : Bool) : List SEv :=
  if !acqOk then [SEv.acquireQ, SEv.setRetFail, SEv.setErrFail]
  else
    [SEv.acquireQ, SEv.incRef, SEv.unlockQ, SEv.setErrInProgress, SEv.spawnT] ++
      (if spawnOk then [SEv.waitSem]
       else [SEv.lockQ, SEv.unrefQ, SEv.setErrAgain, SEv.setRetNeg])

/-- How `submit`'s outcome lands on the handle slots. -/
def applyStamps (cb : Aiocb) (o : SubmitOut) : Aiocb :=
  { cb with err := o.hErr, ret := o.hRet.getD cb.ret }

/-- Embedding of `aio_fsync(op, cb)`: reject any flag other than
`O_SYNC`/`O_DSYNC` with −1/EINVAL before `submit` is reached. -/
def aio_fsync_model (op : Int) (cb : Aiocb) (errno0 : Int)
    (acqErr : Option Int) (spawnOk : Bool) : Int × Int × Aiocb :=
  if op ≠ O_SYNC ∧ op ≠ O_DSYNC then (-1, EINVAL, cb)
  else
    let o := submitModel errno0 acqErr spawnOk
    (o.res, o.errno, applyStamps cb o)

/-! ## Claim theorems: status, cancellation and submission error paths -/

/-- Claim C8: `aio_error` returns exactly the low 31 bits of the stored
`__err` word (`cb->__err & 0x7fffffff`), so the result equals the word
reduced modulo 2^31, is below 2^31 (hence non-negative as a signed
32-bit integer), and has bit 31 — the reserved high bit — clear; and
`aio_return` returns the `__ret` slot verbatim. -/
theorem claimC8_error_return (errWord : Nat) (ret : Int) :
    aio_error_model errWord = errWord % 2 ^ 31 ∧
    aio_error_model errWord < 2 ^ 31 ∧
    (aio_error_model errWord).testBit 31 = false ∧
    aio_return_model ret = ret := by
  have hmask : aio_error_model errWord = errWord % 2 ^ 31 := by
    show errWord &&& 2147483647 = errWord % 2 ^ 31
    have h : (2147483647 : Nat) = 2 ^ 31 - 1 := by norm_num
    rw [h]
    apply Nat.eq_of_testBit_eq
    intro i
    rw [Nat.testBit_land, Nat.testBit_mod_two_pow, Nat.testBit_two_pow_sub_one]
    exact Bool.and_comm _ _
  have hlt : aio_error_model errWord < 2 ^ 31 := by
    rw [hmask]; exact Nat.mod_lt _ (by norm_num)
  refine ⟨hmask, hlt, ?_, rfl⟩
  exact Nat.testBit_lt_two_pow hlt

/-- Claim C5 counterexample: cancelling the non-negative fd 5 while it
is invalid (not open, `fdValid = false`) and has no queue returns
ALL_DONE with errno left at the ENOENT the function itself installed —
not −1/EBADF as the claim asserts for every invalid fd. -/
theorem claimC5_counterexample :
    aio_cancel_model 5 none none false = (AIO_ALLDONE, ENOENT, none) ∧
    AIO_ALLDONE ≠ (-1 : Int) ∧ ENOENT ≠ EBADF := by
  decide

/-- Claim C5 (amended): `aio_cancel` on an fd with no queue returns −1
with errno EBADF exactly when the fd is negative — the `need == 0`
lookup never probes descriptor validity — and returns ALL_DONE for
every non-negative fd with no queue, open or not. -/
theorem claimC5_cancel_no_queue (fd : Int) (fdValid : Bool) :
    (fd < 0 → aio_cancel_model fd none none fdValid = (-1, EBADF, none)) ∧
    (0 ≤ fd → aio_cancel_model fd none none fdValid = (AIO_ALLDONE, ENOENT, none)) := by
  constructor
  · intro h
    simp [aio_cancel_model, cancelCore, h]
  · intro h
    have h2 : ¬fd < 0 := by omega
    simp [aio_cancel_model, cancelCore, h2]

theorem claimC5_witness :
    aio_cancel_model (-3) none none true = (-1, EBADF, none) ∧
    aio_cancel_model 5 none none true = (AIO_ALLDONE, ENOENT, none) :=
  ⟨(claimC5_cancel_no_queue (-3) true).1 (by decide),
   (claimC5_cancel_no_queue 5 true).2 (by decide)⟩

theorem cancelScan_cases (cbq : Option Nat) (ws : List WorkerC) (r : Int)
    (h : r = AIO_CANCELED ∨ r = AIO_ALLDONE) :
    cancelScan cbq ws r = AIO_CANCELED ∨ cancelScan cbq ws r = AIO_ALLDONE := by
  induction ws generalizing r with
  | nil => simpa [cancelScan] using h
  | cons p ps ih =>
      show cancelScan cbq ps _ = AIO_CANCELED ∨ cancelScan cbq ps _ = AIO_ALLDONE
      apply ih
      split
      · exact h
      · split
        · split
          · left; rfl
          · exact h
        · exact h

/-- Claim C10: `aio_cancel` never returns AIO_NOTCANCELED (1), although
the public header defines it; every result is −1, AIO_CANCELED (0) or
AIO_ALLDONE (2). -/
theorem claimC10_no_notcanceled (fd : Int) (cb : Option Aiocb)
    (queue : Option (List WorkerC)) (fdValid : Bool) :
    ((aio_cancel_model fd cb queue fdValid).1 = -1 ∨
     (aio_cancel_model fd cb queue fdValid).1 = AIO_CANCELED ∨
     (aio_cancel_model fd cb queue fdValid).1 = AIO_ALLDONE) ∧
    (aio_cancel_model fd cb queue fdValid).1 ≠ AIO_NOTCANCELED := by
  have hcore : ∀ c : Option Aiocb,
      (cancelCore fd c queue fdValid).1 = -1 ∨
      (cancelCore fd c queue fdValid).1 = AIO_CANCELED ∨
      (cancelCore fd c queue fdValid).1 = AIO_ALLDONE := by
    intro c
    unfold cancelCore
    split
    · left; rfl
    · cases queue with
      | none => right; right; rfl
      | some ws =>
          rcases cancelScan_cases (c.map Aiocb.id) ws AIO_ALLDONE (Or.inr rfl) with h | h
          · right; left; exact h
          · right; right; exact h
  have hmain : (aio_cancel_model fd cb queue fdValid).1 = -1 ∨
      (aio_cancel_model fd cb queue fdValid).1 = AIO_CANCELED ∨
      (aio_cancel_model fd cb queue fdValid).1 = AIO_ALLDONE := by
    cases cb with
    | some c =>
        simp only [aio_cancel_model]
        split
        · left; rfl
        · exact hcore (some c)
    | none => exact hcore none
  refine ⟨hmain, ?_⟩
  rcases hmain with h | h | h <;> rw [h] <;> decide

/-- Claim C6: when `__aio_get_queue` fails, `submit` returns −1 and
stamps the handle with `__ret = -1` and `__err` = EBADF if the lookup
errno was EBADF and EAGAIN otherwise; on `pthread_create` failure it
releases the queue reference (net reference change 0, with the unref
between relocking and the stamps) and stamps `__ret = -1`,
`__err = EAGAIN`, returning −1. -/
theorem claimC6_submit_failure (e errno0 : Int) (spawnOk : Bool) :
    (submitModel errno0 (some e) spawnOk).res = -1 ∧
    (submitModel errno0 (some e) spawnOk).hRet = some (-1) ∧
    (submitModel errno0 (some e) spawnOk).hErr =
      (if e = EBADF then EBADF else EAGAIN) ∧
    submitModel errno0 none false =
      ⟨-1, EAGAIN, EAGAIN, some (-1), 0⟩ ∧
    SEv.unrefQ ∈ submitEvents true false ∧
    List.indexOf SEv.lockQ (submitEvents true false) <
      List.indexOf SEv.unrefQ (submitEvents true false) ∧
    List.indexOf SEv.unrefQ (submitEvents true false) <
      List.indexOf SEv.setErrAgain (submitEvents true false) := by
  refine ⟨rfl, rfl, ?_, rfl, by decide, by decide, by decide⟩
  by_cases h : e = EBADF <;> simp [submitModel, h]

/-- Claim C7: the invalid-argument paths return −1 with errno EINVAL
and leave the handle's `__err` and `__ret` slots untouched:
`aio_cancel` when a handle is given whose fd differs from the fd
argument, and `aio_fsync` when the flag is neither O_SYNC nor O_DSYNC. -/
theorem claimC7_einval_no_mutation (fd : Int) (c : Aiocb)
    (queue : Option (List WorkerC)) (fdValid : Bool)
    (op : Int) (errno0 : Int) (acqErr : Option Int) (spawnOk : Bool)
    (hfd : fd ≠ c.fd) (hop : op ≠ O_SYNC) (hop2 : op ≠ O_DSYNC) :
    aio_cancel_model fd (some c) queue fdValid = (-1, EINVAL, some c) ∧
    aio_fsync_model op c errno0 acqErr spawnOk = (-1, EINVAL, c) := by
  constructor
  · simp [aio_cancel_model, hfd]
  · simp [aio_fsync_model, hop, hop2]

theorem claimC7_witness :
    aio_cancel_model 4 (some ⟨7, 0, 0, 0⟩) none true = (-1, EINVAL, some ⟨7, 0, 0, 0⟩) ∧
    aio_fsync_model 3 ⟨7, 0, 0, 0⟩ 0 none true = (-1, EINVAL, ⟨7, 0, 0, 0⟩) :=
  claimC7_einval_no_mutation 4 ⟨7, 0, 0, 0⟩ none true 3 0 none true
    (by decide) (by decide) (by decide)

/-! ## Worker body and cleanup handler

`io_thread_func` initialises its stack-frame worker record with
`running = 1`, `err = ECANCELED`, `ret = -1` and, if it is not
cancelled first, overwrites `ret` with the I/O result and `err` with
`ret < 0 ? errno : 0` after the blocking call. -/

structure WRec where
  running : Int
  err : Int
  ret : Int
deriving DecidableEq

def wrecInit : WRec := ⟨1, ECANCELED, -1⟩

def recordIO (ret errno : Int) (w : WRec) : WRec :=
  { w with ret := ret, err := if ret < 0 then errno else 0 }

/-- The worker record as the `cleanup` handler sees it:
`cancelledBeforeRecord` is true when cancellation diverted the worker
before the two stores following the I/O call. -/
def workerFinal (cancelledBeforeRecord : Bool) (ret errno : Int) : WRec :=
  if cancelledBeforeRecord then wrecInit else recordIO ret errno wrecInit

/-- Values the worker `running` word can hold when `cleanup` runs: it
is stored as 1 when the worker links itself in, and the only other
write before cleanup's swap is the canceller's `a_cas(&p->running, 1, -1)`. -/
inductive RunningReach : Int → Prop where
  | started : RunningReach 1
  | cancelRequested : RunningReach 1 → RunningReach (-1)

/-- The `sigev_notify` modes distinguished by `cleanup`. -/
inductive Notify where
  | noneEv | signal | thread
deriving DecidableEq

inductive CEv where
  | setRet | swapRunning | wakeRunning | swapErr | wakeErr | swapFut | wakeFut
  | lockQ | unlink | broadcast | unrefQ | notifySig | notifyThread
deriving DecidableEq

/-- The `if (a_swap(...) ...) __wake(...)` pattern: the wake is emitted
only under the condition on the swapped-out value. -/
def wakeIf (c : Prop) [Decidable c] (e : CEv) : List CEv :=
  if c then [e] else []

/-- Order of the externally visible actions of `cleanup(at)`, as a
function of the values the three atomic swaps find: `rp` in
`at->running`, `ep` in `cb->__err`, `fp` in `__aio_fut`.  Mirrors lines
261–293 of aio.c: store `__ret`; swap `running` to 0, waking iff the
old value was negative; swap `__err` to the final error, waking iff the
old value was not EINPROGRESS; swap `__aio_fut` to 0, waking iff it was
non-zero; then lock the queue, unlink, broadcast the condvar, unref,
and finally deliver the sigevent notification. -/
def cleanupEvents (rp ep fp : Int) (sev : Notify) : List CEv :=
  [CEv.setRet, CEv.swapRunning] ++ wakeIf (rp < 0) CEv.wakeRunning ++
    [CEv.swapErr] ++ wakeIf (ep ≠ EINPROGRESS) CEv.wakeErr ++
    [CEv.swapFut] ++ wakeIf (fp ≠ 0) CEv.wakeFut ++
    [CEv.lockQ, CEv.unlink, CEv.broadcast, CEv.unrefQ] ++
    wakeIf (sev = Notify.signal) CEv.notifySig ++
    wakeIf (sev = Notify.thread) CEv.notifyThread

/-- Post-state of the three atomic words and the result slot after
`cleanup`: `running` and `__aio_fut` are swapped to 0, `__err` to the
worker's final error, `__ret` to the worker's `ret`. -/
structure CleanupPost where
  running : Int
  err : Int
  fut : Int
  retSlot : Int
deriving DecidableEq

def cleanupPost (w : WRec) : CleanupPost := ⟨0, w.err, 0, w.ret⟩

theorem mem_wakeIf (c : Prop) [Decidable c] (e a : CEv) :
    a ∈ wakeIf c e ↔ c ∧ a = e := by
  by_cases h : c <;> simp [wakeIf, h]

/-- The conclusion of claim C2, spelled over `cleanupEvents` and
`cleanupPost`. -/
def cleanupConcl (rp ep fp : Int) (sev : Notify) (w : WRec) : Prop :=
  (CEv.wakeRunning ∈ cleanupEvents rp ep fp sev ↔ rp = -1) ∧
  (CEv.wakeErr ∈ cleanupEvents rp ep fp sev ↔ ep ≠ EINPROGRESS) ∧
  (CEv.wakeFut ∈ cleanupEvents rp ep fp sev ↔ fp ≠ 0) ∧
  List.indexOf CEv.setRet (cleanupEvents rp ep fp sev) <
    List.indexOf CEv.swapRunning (cleanupEvents rp ep fp sev) ∧
  List.indexOf CEv.swapRunning (cleanupEvents rp ep fp sev) <
    List.indexOf CEv.swapErr (cleanupEvents rp ep fp sev) ∧
  List.indexOf CEv.swapErr (cleanupEvents rp ep fp sev) <
    List.indexOf CEv.swapFut (cleanupEvents rp ep fp sev) ∧
  List.indexOf CEv.swapFut (cleanupEvents rp ep fp sev) <
    List.indexOf CEv.unlink (cleanupEvents rp ep fp sev) ∧
  (sev = Notify.signal →
    List.indexOf CEv.unlink (cleanupEvents rp ep fp sev) <
      List.indexOf CEv.notifySig (cleanupEvents rp ep fp sev)) ∧
  (sev = Notify.thread →
    List.indexOf CEv.unlink (cleanupEvents rp ep fp sev) <
      List.indexOf CEv.notifyThread (cleanupEvents rp ep fp sev)) ∧
  cleanupPost w = ⟨0, w.err, 0, w.ret⟩

/-- Claim C2: in the worker cleanup path, after the result slot is
written, `running` is swapped to 0 with waiters woken iff the previous
value was the −1 sentinel (the word is 1 or −1 here, per
`RunningReach`); then `__err` is swapped to the final error with
waiters woken iff the previous value was not EINPROGRESS; then
`__aio_fut` is swapped to 0 with waiters woken iff it was non-zero — in
that order, before the worker is unlinked and the notification is
emitted. -/
theorem claimC2_cleanup_protocol (rp ep fp : Int) (sev : Notify) (w : WRec)
    (h : RunningReach rp) : cleanupConcl rp ep fp sev w := by
  have hr : rp = 1 ∨ rp = -1 := by
    cases h with
    | started => left; rfl
    | cancelRequested _ => right; rfl
  rcases hr with rfl | rfl <;> cases sev <;>
    by_cases hep : ep = EINPROGRESS <;> by_cases hfp : fp = 0 <;>
    simp [cleanupConcl, cleanupEvents, wakeIf, cleanupPost, hep, hfp]

theorem claimC2_witness :
    cleanupConcl (-1) EINPROGRESS 0 Notify.noneEv ⟨0, 0, 7⟩ :=
  claimC2_cleanup_protocol (-1) EINPROGRESS 0 Notify.noneEv ⟨0, 0, 7⟩
    (RunningReach.cancelRequested RunningReach.started)

/-- Claim C3: the submitter stores EINPROGRESS in the handle's `__err`
before spawning the worker (also on the path where the spawn then
fails); the cleanup handler swaps `__err` exactly once, to the worker's
final error — 0 if the I/O call succeeded, the call's errno if it
failed, and the pre-initialised ECANCELED if the worker was cancelled
before recording a result, in which case the result slot holds −1. -/
theorem claimC3_err_lifecycle (cancelled : Bool) (ret errno : Int)
    (rp ep fp : Int) (sev : Notify) (errno0 : Int) :
    (submitModel errno0 none true).hErr = EINPROGRESS ∧
    List.indexOf SEv.setErrInProgress (submitEvents true true) <
      List.indexOf SEv.spawnT (submitEvents true true) ∧
    List.indexOf SEv.setErrInProgress (submitEvents true false) <
      List.indexOf SEv.spawnT (submitEvents true false) ∧
    (cleanupEvents rp ep fp sev).count CEv.swapErr = 1 ∧
    (workerFinal cancelled ret errno).err =
      (if cancelled then ECANCELED else if ret < 0 then errno else 0) ∧
    (workerFinal true ret errno).ret = -1 ∧
    (cleanupPost (workerFinal cancelled ret errno)).err =
      (workerFinal cancelled ret errno).err := by
  refine ⟨rfl, by decide, by decide, ?_, ?_, rfl, rfl⟩
  · by_cases h1 : rp < 0 <;> by_cases h2 : ep = EINPROGRESS <;>
      by_cases h3 : fp = 0 <;> cases sev <;>
      simp [cleanupEvents, wakeIf, h1, h2, h3]
  · cases cancelled <;> simp [workerFinal, recordIO, wrecInit]

/-! ## Queue release (`__aio_unref_queue`)

Entered with the queue mutex held.  `ref1` is the value of `q->ref`
read under that mutex at entry; if the fast path is not taken, the
mutex is dropped, the map's write lock and then the queue mutex are
re-taken, and `ref2` is the value of `q->ref` found on re-examination
(it may have grown while no lock was held). -/

inductive UEv where
  | decRef | unlockQ | wrlockMap | lockQ | nullLeaf | decCnt | unlockMap | freeQ
deriving DecidableEq

def unrefEvents (ref1 ref2 : Int) : List UEv :=
  if ref1 > 1 then [UEv.decRef, UEv.unlockQ]
  else
    [UEv.unlockQ, UEv.wrlockMap, UEv.lockQ] ++
      (if ref2 = 1 then [UEv.nullLeaf, UEv.decCnt, UEv.unlockMap, UEv.unlockQ, UEv.freeQ]
       else [UEv.decRef, UEv.unlockMap, UEv.unlockQ])

/-- Resulting queue state: final `ref` (meaningless once freed), whether
the queue was freed, whether the map leaf computed from `q->fd` was
nulled, and the change to `aio_fd_cnt`. -/
structure UnrefOut where
  ref : Int
  freed : Bool
  leafCleared : Bool
  cntDelta : Int
deriving DecidableEq

def unrefModel (ref1 ref2 : Int) : UnrefOut :=
  if ref1 > 1 then ⟨ref1 - 1, false, false, 0⟩
  else if ref2 = 1 then ⟨ref2, true, true, -1⟩
  else ⟨ref2 - 1, false, false, 0⟩

/-- The conclusion of claim C4 over `unrefModel` and `unrefEvents`. -/
def unrefConcl (ref1 ref2 : Int) : Prop :=
  (ref1 > 1 →
    unrefModel ref1 ref2 = ⟨ref1 - 1, false, false, 0⟩ ∧
    unrefEvents ref1 ref2 = [UEv.decRef, UEv.unlockQ]) ∧
  (ref1 ≤ 1 → ref2 = 1 →
    unrefModel ref1 ref2 = ⟨1, true, true, -1⟩ ∧
    unrefEvents ref1 ref2 =
      [UEv.unlockQ, UEv.wrlockMap, UEv.lockQ,
       UEv.nullLeaf, UEv.decCnt, UEv.unlockMap, UEv.unlockQ, UEv.freeQ]) ∧
  (ref1 ≤ 1 → ref2 ≠ 1 →
    unrefModel ref1 ref2 = ⟨ref2 - 1, false, false, 0⟩ ∧
    unrefEvents ref1 ref2 =
      [UEv.unlockQ, UEv.wrlockMap, UEv.lockQ,
       UEv.decRef, UEv.unlockMap, UEv.unlockQ]) ∧
  ((unrefModel ref1 ref2).freed = (unrefModel ref1 ref2).leafCleared) ∧
  ((unrefModel ref1 ref2).freed = false → 0 < (unrefModel ref1 ref2).ref)

/-- Claim C4: with the queue mutex held, `__aio_unref_queue` decrements
and unlocks when `ref > 1`; otherwise it drops the queue mutex, takes
the map write lock, retakes the queue mutex, and then either — if `ref`
is exactly 1 — nulls the leaf, decrements the live-queue counter, drops
both locks and frees the queue, or — if `ref` grew meanwhile — merely
decrements and drops both locks.  Reachability from the map and
`ref > 0` rise and fall together: the caller itself holds a reference,
so `1 ≤ ref1` and `1 ≤ ref2`, and the queue stays mapped exactly when
it survives with a positive count. -/
theorem claimC4_unref (ref1 ref2 : Int) (h1 : 1 ≤ ref1) (h2 : 1 ≤ ref2) :
    unrefConcl ref1 ref2 := by
  refine ⟨?_, ?_, ?_, ?_, ?_⟩
  · intro hgt
    constructor <;> simp [unrefModel, unrefEvents, hgt]
  · intro hle he
    have hgt : ¬ref1 > 1 := by omega
    constructor <;> simp [unrefModel, unrefEvents, hgt, he]
  · intro hle hne
    have hgt : ¬ref1 > 1 := by omega
    constructor <;> simp [unrefModel, unrefEvents, hgt, hne]
  · by_cases hgt : ref1 > 1
    · simp [unrefModel, hgt]
    · by_cases he : ref2 = 1 <;> simp [unrefModel, hgt, he]
  · intro hnf
    by_cases hgt : ref1 > 1
    · simp [unrefModel, hgt]
    · by_cases he : ref2 = 1
      · simp [unrefModel, hgt, he] at hnf
      · simp [unrefModel, hgt, he]; omega

theorem claimC4_witness : unrefConcl 1 1 ∧ unrefConcl 2 2 :=
  ⟨claimC4_unref 1 1 (by decide) (by decide),
   claimC4_unref 2 2 (by decide) (by decide)⟩

/-! ## Per-queue sequencing (`io_thread_func`, lines 329–351)

A queue state is the worker list (head = most recently linked, since
`io_thread_func` inserts at `q->head`) plus the queue's `append` flag.
A worker is waiting (`running = false`, still before its I/O call) or
executing its I/O call (`running = true`); completed workers are
unlinked by `cleanup` and simply leave the list.

The wait loop

  if (op != LIO_READ && (op != LIO_WRITE || q->append))
      while there is p among at.next, at.next->next, ...
            with p->op == LIO_WRITE: cond_wait;

becomes the start guard: a READ, or a WRITE on a non-append queue,
starts unconditionally; any other op starts only when no WRITE remains
among its list successors. -/

inductive Op where
  | read | write | sync | dsync
deriving DecidableEq

structure Worker where
  op : Op
  running : Bool
deriving DecidableEq

structure QState where
  append : Bool
  workers : List Worker
deriving DecidableEq

/-- `op != LIO_READ && (op != LIO_WRITE || q->append)`. -/
def needsSeq (op : Op) (append : Bool) : Bool :=
  !(op == Op.read) && (!(op == Op.write) || append)

/-- The wait loop's exit condition over the successor list: no sibling
with `op == LIO_WRITE` remains. -/
def noWriteSibling (suf : List Worker) : Bool :=
  suf.all (fun p => !(p.op == Op.write))

/-- A worker whose successors are `suf` may issue its I/O call. -/
def startGuard (append : Bool) (op : Op) (suf : List Worker) : Bool :=
  !(needsSeq op append) || noWriteSibling suf

/-- The list successors of the worker at position `k` (the part of the
list its wait loop scans, starting from `at.next`). -/
def succsAfter (ws : List Worker) (k : Nat) : List Worker :=
  ws.drop (k + 1)

inductive Step : QState → QState → Prop where
  | submit (s : QState) (op : Op) :
      Step s ⟨s.append, ⟨op, false⟩ :: s.workers⟩
  | start (append : Bool) (pre suf : List Worker) (op : Op) :
      startGuard append op suf = true →
      Step ⟨append, pre ++ ⟨op, false⟩ :: suf⟩ ⟨append, pre ++ ⟨op, true⟩ :: suf⟩
  | finish (append : Bool) (pre suf : List Worker) (op : Op) :
      Step ⟨append, pre ++ ⟨op, true⟩ :: suf⟩ ⟨append, pre ++ suf⟩

inductive Reach : QState → Prop where
  | init (append : Bool) : Reach ⟨append, []⟩
  | step {s s' : QState} : Reach s → Step s s' → Reach s'

/-- Number of workers currently inside their I/O call that are
append-writes or syncs — the class the claim says is mutually
exclusive. -/
def guardedRunning (append : Bool) (ws : List Worker) : Nat :=
  ws.countP (fun w => w.running && needsSeq w.op append)

/-- Number of writes currently inside their I/O call. -/
def runningWrites (ws : List Worker) : Nat :=
  ws.countP (fun w => w.running && w.op == Op.write)

/-- Invariant: every worker inside its I/O call whose start was guarded
has no WRITE among its list successors. -/
def SeqInv (append : Bool) : List Worker → Prop
  | [] => True
  | w :: ws =>
      (w.running = true → needsSeq w.op append = true → noWriteSibling ws = true) ∧
      SeqInv append ws

theorem noWriteSibling_append (xs ys : List Worker) :
    noWriteSibling (xs ++ ys) = (noWriteSibling xs && noWriteSibling ys) := by
  simp [noWriteSibling, List.all_append]

theorem seqInv_submit (append : Bool) (op : Op) (ws : List Worker)
    (h : SeqInv append ws) : SeqInv append (⟨op, false⟩ :: ws) :=
  ⟨fun hfalse => Bool.noConfusion hfalse, h⟩

theorem seqInv_start (append : Bool) (pre suf : List Worker) (op : Op)
    (hg : startGuard append op suf = true)
    (h : SeqInv append (pre ++ ⟨op, false⟩ :: suf)) :
    SeqInv append (pre ++ ⟨op, true⟩ :: suf) := by
  induction pre with
  | nil =>
      obtain ⟨-, htail⟩ := h
      refine ⟨fun _ hseq => ?_, htail⟩
      have hg2 : needsSeq op append = false ∨ noWriteSibling suf = true := by
        simpa [startGuard] using hg
      rcases hg2 with hns | hnw
      · rw [hseq] at hns; cases hns
      · exact hnw
  | cons w pre ih =>
      rw [List.cons_append] at h
      obtain ⟨hw, htail⟩ := h
      rw [List.cons_append]
      refine ⟨fun hr hseq => ?_, ih htail⟩
      have hthis := hw hr hseq
      rw [noWriteSibling_append] at hthis ⊢
      simpa [noWriteSibling] using hthis

theorem seqInv_finish (append : Bool) (pre suf : List Worker) (op : Op)
    (h : SeqInv append (pre ++ ⟨op, true⟩ :: suf)) :
    SeqInv append (pre ++ suf) := by
  induction pre with
  | nil => exact h.2
  | cons w pre ih =>
      rw [List.cons_append] at h
      obtain ⟨hw, htail⟩ := h
      rw [List.cons_append]
      refine ⟨fun hr hseq => ?_, ih htail⟩
      have hthis := hw hr hseq
      rw [noWriteSibling_append] at hthis ⊢
      simp only [Bool.and_eq_true] at hthis ⊢
      refine ⟨hthis.1, ?_⟩
      have h3 := hthis.2
      simp only [noWriteSibling, List.all_cons, Bool.and_eq_true] at h3
      exact h3.2

theorem step_seqInv {s s' : QState} (hs : Step s s')
    (h : SeqInv s.append s.workers) : SeqInv s'.append s'.workers := by
  cases hs with
  | submit s op => exact seqInv_submit s.append op s.workers h
  | start append pre suf op hg => exact seqInv_start append pre suf op hg h
  | finish append pre suf op => exact seqInv_finish append pre suf op h

theorem reach_seqInv {s : QState} (h : Reach s) : SeqInv s.append s.workers := by
  induction h with
  | init append => trivial
  | step hr hs ih => exact step_seqInv hs ih

theorem countP_runningWrites_of_noWrite (ws : List Worker)
    (h : noWriteSibling ws = true) : runningWrites ws = 0 := by
  induction ws with
  | nil => rfl
  | cons w ws ih =>
      simp only [noWriteSibling, List.all_cons, Bool.and_eq_true] at h
      simp only [runningWrites, List.countP_cons]
      have hfalse : (w.running && w.op == Op.write) = false := by
        cases hw : w.op == Op.write
        · simp
        · rw [hw] at h; simp at h
      rw [hfalse]
      simpa [runningWrites] using ih h.2

theorem seqInv_runningWrites (ws : List Worker) (h : SeqInv true ws) :
    runningWrites ws ≤ 1 := by
  induction ws with
  | nil => simp [runningWrites]
  | cons w ws ih =>
      obtain ⟨hw, htail⟩ := h
      simp only [runningWrites, List.countP_cons]
      cases hwr : (w.running && w.op == Op.write)
      · simpa [runningWrites] using ih htail
      · have hb : w.running = true ∧ (w.op == Op.write) = true := by
          simpa using hwr
        have hseq : needsSeq w.op true = true := by
          have hop : w.op = Op.write := by
            have := hb.2; simpa using this
          simp [needsSeq, hop]
        have hnw := hw hb.1 hseq
        have hz : runningWrites ws = 0 := countP_runningWrites_of_noWrite ws hnw
        simp only [runningWrites] at hz
        simp only [hz, if_pos]
        omega

/-- Claim C1 counterexample: on an append-mode queue, submit a sync
worker, let it start (no WRITE sibling), then submit a write worker —
its only scanned sibling is the sync, which is not a WRITE, so it
starts too.  The reachable state has two workers of the
"append-write or sync" class inside their I/O calls at once, refuting
"at most one append-write or sync on a given queue executes at a
time". -/
theorem claimC1_counterexample :
    Reach ⟨true, [⟨Op.write, true⟩, ⟨Op.sync, true⟩]⟩ ∧
    guardedRunning true [⟨Op.write, true⟩, ⟨Op.sync, true⟩] = 2 ∧
    ¬guardedRunning true [⟨Op.write, true⟩, ⟨Op.sync, true⟩] ≤ 1 := by
  refine ⟨?_, by decide, by decide⟩
  have h0 : Reach ⟨true, []⟩ := Reach.init true
  have h1 : Reach ⟨true, [⟨Op.sync, false⟩]⟩ :=
    Reach.step h0 (Step.submit ⟨true, []⟩ Op.sync)
  have h2 : Reach ⟨true, [⟨Op.sync, true⟩]⟩ :=
    Reach.step h1 (Step.start true [] [] Op.sync (by decide))
  have h3 : Reach ⟨true, [⟨Op.write, false⟩, ⟨Op.sync, true⟩]⟩ :=
    Reach.step h2 (Step.submit ⟨true, [⟨Op.sync, true⟩]⟩ Op.write)
  exact Reach.step h3 (Step.start true [] [⟨Op.sync, true⟩] Op.write (by decide))

/-- Claim C1 (amended): a READ, or a WRITE on a non-append queue,
issues its I/O without waiting; any other worker waits until no WRITE
remains among the queue siblings it scans (the start guard of `Step`).
Consequently, on an append-mode queue at most one WRITE is inside its
I/O call at any time — the mutual exclusion holds for append-writes,
not for the whole append-write-or-sync class. -/
theorem claimC1_sequencing (s : QState) (h : Reach s) (happ : s.append = true) :
    runningWrites s.workers ≤ 1 ∧
    (∀ pre suf op, startGuard s.append op suf = true →
      Step ⟨s.append, pre ++ ⟨op, false⟩ :: suf⟩
        ⟨s.append, pre ++ ⟨op, true⟩ :: suf⟩) :=
  ⟨seqInv_runningWrites s.workers (happ ▸ reach_seqInv h),
   fun pre suf op hg => Step.start s.append pre suf op hg⟩

theorem claimC1_witness :
    runningWrites (QState.mk true []).workers ≤ 1 ∧
    (∀ pre suf op, startGuard (QState.mk true []).append op suf = true →
      Step ⟨(QState.mk true []).append, pre ++ ⟨op, false⟩ :: suf⟩
        ⟨(QState.mk true []).append, pre ++ ⟨op, true⟩ :: suf⟩) :=
  claimC1_sequencing ⟨true, []⟩ (Reach.init true) rfl

/-- Claim C9: a newly submitted worker is linked at the head of the
list, so the successor list an existing worker's wait loop scans
(everything after its own position) is unchanged by the submission —
after the new head is added, the worker sits one position further in
but scans exactly the same siblings, and its start guard has the same
value; in particular a WRITE registered after a waiting append-write or
sync worker is never among the siblings that keep it waiting. -/
theorem claimC9_newer_not_scanned (s : QState) (opn : Op) (k : Nat) (op2 : Op) :
    Step s ⟨s.append, ⟨opn, false⟩ :: s.workers⟩ ∧
    succsAfter (⟨opn, false⟩ :: s.workers) (k + 1) = succsAfter s.workers k ∧
    startGuard s.append op2 (succsAfter (⟨opn, false⟩ :: s.workers) (k + 1)) =
      startGuard s.append op2 (succsAfter s.workers k) := by
  refine ⟨Step.submit s opn, ?_, ?_⟩ <;> simp [succsAfter]
